import Mathlib

/-!
# Verification of the scientific-method-framework core

Shallow embedding of the core of the repository (quantum reasoner, hermeneutic
interpreter, research agent paradigm shift, knowledge market) and proofs of the
frozen claims about it.

Python `dict`s (insertion-ordered, update-in-place) are modelled as association
lists `List (κ × α)`; in-place mutation of a value held in a dict is modelled by
rewriting that key's entry.  `datetime.now()` and randomly sampled values are
passed in as explicit parameters.  Machine floats are modelled as real numbers
(`ℝ`, with `ℂ` for complex amplitudes) or rationals (`ℚ`) where the code is pure
rational arithmetic.
-/

namespace SMF

/-! ## Association lists: the embedding of Python dicts -/

/-- First value stored under key `k` (Python `d[k]` / `d.get(k)`). -/
def alookup {κ α : Type} [DecidableEq κ] : List (κ × α) → κ → Option α
  | [], _ => none
  | (k, v) :: t, a => if k = a then some v else alookup t a

/-- Rewrite the value stored under key `k` in place (Python mutation of the
object stored at `d[k]`); no-op for keys not present. -/
def amodify {κ α : Type} [DecidableEq κ] : List (κ × α) → κ → (α → α) → List (κ × α)
  | [], _, _ => []
  | (k1, v) :: t, k, f => (if k1 = k then (k1, f v) else (k1, v)) :: amodify t k f

/-- Python assignment `d[k] = v`: update in place when the key is present,
append otherwise. -/
def aset {κ α : Type} [DecidableEq κ] (l : List (κ × α)) (k : κ) (v : α) :
    List (κ × α) :=
  if (alookup l k).isSome then amodify l k (fun _ => v) else l ++ [(k, v)]

theorem alookup_cons {κ α : Type} [DecidableEq κ] (k1 : κ) (v1 : α)
    (t : List (κ × α)) (a : κ) :
    alookup ((k1, v1) :: t) a = if k1 = a then some v1 else alookup t a := rfl

theorem alookup_amodify {κ α : Type} [DecidableEq κ] (l : List (κ × α)) (k : κ)
    (f : α → α) (a : κ) :
    alookup (amodify l k f) a =
      if a = k then (alookup l a).map f else alookup l a := by
  induction l with
  | nil => simp [alookup, amodify]
  | cons p t ih =>
    obtain ⟨k1, v1⟩ := p
    show alookup ((if k1 = k then (k1, f v1) else (k1, v1)) :: amodify t k f) a = _
    by_cases h1 : k1 = k
    · rw [if_pos h1, alookup_cons, alookup_cons]
      by_cases h2 : k1 = a
      · subst h2
        rw [if_pos rfl, if_pos rfl, if_pos h1]
        rfl
      · rw [if_neg h2, if_neg h2, ih]
    · rw [if_neg h1, alookup_cons, alookup_cons]
      by_cases h2 : k1 = a
      · subst h2
        have ha : ¬ (k1 = k) := h1
        rw [if_pos rfl, if_pos rfl, if_neg ha]
      · rw [if_neg h2, if_neg h2, ih]

theorem alookup_append {κ α : Type} [DecidableEq κ] (l m : List (κ × α)) (a : κ) :
    alookup (l ++ m) a =
      match alookup l a with
      | some v => some v
      | none => alookup m a := by
  induction l with
  | nil => simp [alookup]
  | cons p t ih =>
    obtain ⟨k1, v1⟩ := p
    by_cases h : k1 = a
    · simp [alookup, h]
    · simp [alookup, h, ih]

theorem alookup_aset {κ α : Type} [DecidableEq κ] (l : List (κ × α)) (k : κ)
    (v : α) (a : κ) :
    alookup (aset l k v) a = if a = k then some v else alookup l a := by
  unfold aset
  by_cases hp : (alookup l k).isSome
  · rcases Option.isSome_iff_exists.mp hp with ⟨w, hw⟩
    rw [if_pos hp, alookup_amodify]
    by_cases h : a = k
    · subst h; simp [hw]
    · simp [h]
  · rw [if_neg hp, alookup_append]
    by_cases h : a = k
    · subst h
      have hn : alookup l a = none := by
        rcases hl : alookup l a with _ | w
        · rfl
        · rw [hl] at hp; simp at hp
      rw [hn]
      simp [alookup]
    · rcases hl : alookup l a with _ | w
      · simp [alookup, Ne.symm h, h]
      · simp [h]

/-- Looking up through a value-only map (used for whole-dict value rewrites
such as amplitude renormalization). -/
theorem alookup_map_value {κ α : Type} [DecidableEq κ] (l : List (κ × α))
    (g : α → α) (a : κ) :
    alookup (l.map (fun p => (p.1, g p.2))) a = (alookup l a).map g := by
  induction l with
  | nil => simp [alookup]
  | cons p t ih =>
    obtain ⟨k1, v1⟩ := p
    by_cases h : k1 = a
    · simp [alookup, h]
    · simp [alookup, h, ih]

theorem sum_map_mul_const (l : List ℝ) (c : ℝ) :
    (l.map (fun x => x * c)).sum = l.sum * c := by
  induction l with
  | nil => simp
  | cons x t ih => simp [ih]; ring

/-! ## Data model (`src/src/scientific_agent.py`)

Only the fields the verified operations read are carried; float scores are
modelled as rationals. -/

/-- The `strength` attribute of an `Evidence` record: `apply_evidence` accepts
an enum-like object carrying `.value`, a plain number, or anything else
(falling back to a default). -/
inductive StrengthField where
  | enumVal (v : ℝ)
  | numeric (x : ℝ)
  | other

/-- `Evidence` dataclass (fields read by the quantum reasoner). -/
structure Evidence where
  id : String
  hypothesis_id : String
  strength : StrengthField

/-- `Hypothesis` dataclass (fields read by the reasoner and the market). -/
structure Hypothesis where
  id : String
  statement : String
  confidence : ℚ
  complexity : ℚ
  novelty : ℚ
  testability : ℚ
  supporting_evidence : List Evidence
  disconfirming_evidence : List Evidence

/-! ## Quantum reasoner (`src/core/quantum.py`) -/

/-- `QuantumHypothesisState` dataclass. -/
structure QuantumHypothesisState where
  hypothesis : Hypothesis
  amplitude : ℂ
  phase : ℝ
  entanglement_links : List String

/-- Born rule probability: `abs(self.amplitude) ** 2`. -/
noncomputable def QuantumHypothesisState.probability (s : QuantumHypothesisState) : ℝ :=
  Complex.abs s.amplitude ^ 2

/-- Node attributes stored in the entanglement network by
`add_hypothesis_superposition`. -/
structure NodeAttr where
  confidence : ℚ
  novelty : ℚ

/-- An edge of the (undirected) `networkx` entanglement graph. -/
structure EntEdge where
  endA : String
  endB : String
  strength : ℝ

/-- A record appended to `decoherence_history` by `apply_evidence`. -/
structure DecoherenceEvent where
  timestamp : Nat
  hypothesis_id : String
  evidence_id : String
  pre_amplitude : ℂ
  evidence_strength : ℝ
  decoherence_rate : ℝ

/-- `QuantumScientificReasoner` state.  The `networkx` graph is carried as a
node-attribute dict plus an undirected edge list. -/
structure QuantumScientificReasoner where
  hypothesis_superpositions : List (String × QuantumHypothesisState)
  interference_patterns : List (String × List ℝ)
  entanglement_nodes : List (String × NodeAttr)
  entanglement_edges : List EntEdge
  decoherence_history : List DecoherenceEvent

/-- `QuantumScientificReasoner.__init__`. -/
def emptyReasoner : QuantumScientificReasoner := ⟨[], [], [], [], []⟩

/-- `nx.Graph.add_edge`: updates attributes when the edge (in either
orientation) exists, appends otherwise. -/
def addEdge (es : List EntEdge) (a b : String) (s : ℝ) : List EntEdge :=
  if es.any (fun e => (e.endA = a ∧ e.endB = b) ∨ (e.endA = b ∧ e.endB = a)) then
    es.map (fun e =>
      if (e.endA = a ∧ e.endB = b) ∨ (e.endA = b ∧ e.endB = a) then
        ⟨e.endA, e.endB, s⟩ else e)
  else es ++ [⟨a, b, s⟩]

/-- `add_hypothesis_superposition(hypothesis, initial_amplitude=1+0j)`.  The
uniformly random phase `np.random.uniform(0, 2*np.pi)` is passed in as the
parameter `phase`. -/
noncomputable def addHypothesisSuperposition (phase : ℝ) (h : Hypothesis)
    (initial_amplitude : ℂ) (r : QuantumScientificReasoner) :
    QuantumScientificReasoner :=
  let state : QuantumHypothesisState :=
    ⟨h, initial_amplitude / (Real.sqrt 2 : ℝ), phase, []⟩
  { r with
    hypothesis_superpositions := aset r.hypothesis_superpositions h.id state
    entanglement_nodes := aset r.entanglement_nodes h.id ⟨h.confidence, h.novelty⟩ }

/-- `entangle_hypotheses(id1, id2, entanglement_strength=0.5)`.  Both link
appends happen on the dict objects before `_update_entangled_amplitudes`
recomputes the two amplitudes from the pre-assignment values and assigns
`state1.amplitude` then `state2.amplitude` (matching Python aliasing when
`id1 = id2`). -/
noncomputable def entangleHypotheses (id1 id2 : String) (entanglement_strength : ℝ)
    (r : QuantumScientificReasoner) : QuantumScientificReasoner :=
  match alookup r.hypothesis_superpositions id1,
        alookup r.hypothesis_superpositions id2 with
  | some state1, some state2 =>
    let sups1 := amodify r.hypothesis_superpositions id1
      (fun s => { s with entanglement_links := s.entanglement_links ++ [id2] })
    let sups2 := amodify sups1 id2
      (fun s => { s with entanglement_links := s.entanglement_links ++ [id1] })
    -- _update_entangled_amplitudes
    let angle := Complex.arg state2.amplitude
    let new_amp1 := state1.amplitude *
      Complex.exp (Complex.I * (angle * entanglement_strength : ℝ))
    let new_amp2 := state2.amplitude *
      Complex.exp (Complex.I * (Real.pi / 2 * entanglement_strength : ℝ))
    let sups3 := amodify sups2 id1 (fun s => { s with amplitude := new_amp1 })
    let sups4 := amodify sups3 id2 (fun s => { s with amplitude := new_amp2 })
    { r with
      hypothesis_superpositions := sups4
      entanglement_edges := addEdge r.entanglement_edges id1 id2 entanglement_strength }
  | _, _ => r

/-- The normalized evidence strength computed by `apply_evidence`: enum values
are divided by 3.0, numbers are used directly, anything else falls back to the
default 0.5. -/
noncomputable def evidenceStrengthVal : StrengthField → ℝ
  | .enumVal v => v / 3
  | .numeric x => x
  | .other => 0.5

/-- Total Born probability over all registered states (the sum computed by
`_normalize_superposition`). -/
noncomputable def totalProb (r : QuantumScientificReasoner) : ℝ :=
  (r.hypothesis_superpositions.map (fun p => p.2.probability)).sum

/-- `_normalize_superposition`: when total probability is positive every
amplitude is multiplied by `1.0 / np.sqrt(total_prob)`. -/
noncomputable def normalizeSuperposition (r : QuantumScientificReasoner) :
    QuantumScientificReasoner :=
  if totalProb r > 0 then
    let sups := r.hypothesis_superpositions.map (fun p =>
      (p.1, { p.2 with amplitude :=
        p.2.amplitude * ((1 / Real.sqrt (totalProb r) : ℝ) : ℂ) }))
    { r with hypothesis_superpositions := sups }
  else r

/-- The amplitude-scaling block of `apply_evidence`: confirming evidence
multiplies the amplitude by `1 + strength*0.5`, disconfirming by
`1 - |strength|*0.3`. -/
noncomputable def scaleEvidence (ev : Evidence) (r : QuantumScientificReasoner) :
    QuantumScientificReasoner :=
  let s := evidenceStrengthVal ev.strength
  let factor := if s > 0 then 1 + s * 0.5 else 1 - |s| * 0.3
  let sups := amodify r.hypothesis_superpositions ev.hypothesis_id (fun st =>
    { st with amplitude := st.amplitude * (factor : ℂ) })
  { r with hypothesis_superpositions := sups }

/-- The entangled-neighbor propagation loop at the end of `apply_evidence`:
each registered entangled neighbor amplitude is multiplied by
`1 + strength*0.2`. -/
noncomputable def propagateEntangled (links : List String) (s : ℝ)
    (sups : List (String × QuantumHypothesisState)) :
    List (String × QuantumHypothesisState) :=
  links.foldl
    (fun acc eid =>
      if (alookup acc eid).isSome then
        amodify acc eid
          (fun st => { st with amplitude := st.amplitude * ((1 + s * 0.2 : ℝ) : ℂ) })
      else acc)
    sups

/-- `apply_evidence(evidence, decoherence_rate=0.1)`.  `datetime.now()` is the
parameter `now`.  The recorded `"pre_amplitude"` is the dict object attribute
`state.amplitude` read after the scaling and renormalization have mutated it. -/
noncomputable def applyEvidence (now : Nat) (ev : Evidence) (decoherence_rate : ℝ)
    (r : QuantumScientificReasoner) : QuantumScientificReasoner :=
  match alookup r.hypothesis_superpositions ev.hypothesis_id with
  | none => r
  | some state =>
    let s := evidenceStrengthVal ev.strength
    let r2 := normalizeSuperposition (scaleEvidence ev r)
    let recordedAmp :=
      match alookup r2.hypothesis_superpositions ev.hypothesis_id with
      | some st => st.amplitude
      | none => state.amplitude
    let event : DecoherenceEvent :=
      ⟨now, ev.hypothesis_id, ev.id, recordedAmp, s, decoherence_rate⟩
    let r3 := { r2 with decoherence_history := r2.decoherence_history ++ [event] }
    let sups := propagateEntangled state.entanglement_links s r3.hypothesis_superpositions
    { r3 with hypothesis_superpositions := sups }

/-- The dict returned by `compute_interference` (empty dict modelled as
`none`). -/
structure Interference where
  phase_difference : ℝ
  constructive_probability : ℝ
  destructive_probability : ℝ
  interference_visibility : ℝ
  entangled : Bool

/-- `compute_interference(id1, id2)`: returns the interference dict and appends
the visibility to the per-pair pattern history. -/
noncomputable def computeInterference (id1 id2 : String) (r : QuantumScientificReasoner) :
    Option Interference × QuantumScientificReasoner :=
  match alookup r.hypothesis_superpositions id1,
        alookup r.hypothesis_superpositions id2 with
  | some state1, some state2 =>
    let phase_diff := Complex.arg state1.amplitude - Complex.arg state2.amplitude
    let constructive := Complex.abs (state1.amplitude + state2.amplitude) ^ 2
    let destructive := Complex.abs (state1.amplitude - state2.amplitude) ^ 2
    let visibility :=
      if constructive + destructive ≠ 0 then
        (constructive - destructive) / (constructive + destructive)
      else 0
    let interference : Interference :=
      ⟨phase_diff, constructive, destructive, visibility,
        decide (id2 ∈ state1.entanglement_links)⟩
    let key := id1 ++ "_" ++ id2
    let base :=
      match alookup r.interference_patterns key with
      | some _ => r.interference_patterns
      | none => aset r.interference_patterns key ([] : List ℝ)
    let patterns := amodify base key (fun l => l ++ [visibility])
    (some interference, { r with interference_patterns := patterns })
  | _, _ => (none, r)

/-- One prediction dict built by `generate_quantum_predictions`. -/
structure QuantumPrediction where
  id : String
  hypothesis_id : String
  type : String
  confidence : ℝ
  novelty : ℝ
  amplitude : ℝ
  phase : ℝ
  generation_method : String
  entanglement_effects : Bool

/-- `generate_quantum_predictions(hypothesis_id, n_predictions=3)`: a pure
function of the current state; `np.angle` is `Complex.arg` (range `(-π, π]`). -/
noncomputable def generateQuantumPredictions (hypothesis_id : String) (n_predictions : Nat)
    (r : QuantumScientificReasoner) : List QuantumPrediction :=
  match alookup r.hypothesis_superpositions hypothesis_id with
  | none => []
  | some state =>
    (List.range n_predictions).map (fun i =>
      let confidence := min 0.95 (state.probability * 1.2)
      let phase_angle := Complex.arg state.amplitude
      let tn : String × ℝ :=
        if 0 ≤ phase_angle ∧ phase_angle < Real.pi / 2 then
          ("direct_effect", 0.3)
        else if Real.pi / 2 ≤ phase_angle ∧ phase_angle < Real.pi then
          ("moderating_effect", 0.6)
        else if Real.pi ≤ phase_angle ∧ phase_angle < 3 * Real.pi / 2 then
          ("mediating_effect", 0.8)
        else
          ("emergent_effect", 0.9)
      { id := "quantum_pred_" ++ hypothesis_id ++ "_" ++ toString i
        hypothesis_id := hypothesis_id
        type := tn.1
        confidence := confidence
        novelty := tn.2
        amplitude := Complex.abs state.amplitude
        phase := phase_angle
        generation_method := "quantum_superposition"
        entanglement_effects := decide (state.entanglement_links.length > 0) })

/-! ## C1: total probability after `apply_evidence` -/

theorem probability_mul_real (st : QuantumHypothesisState) (c : ℝ) :
    (QuantumHypothesisState.probability
      { st with amplitude := st.amplitude * (c : ℂ) }) =
      st.probability * c ^ 2 := by
  unfold QuantumHypothesisState.probability
  rw [map_mul, Complex.abs_ofReal, mul_pow, sq_abs]

/-- Scaling every amplitude in a superposition dict by a real constant scales
the total Born probability by its square. -/
theorem sum_prob_scale (l : List (String × QuantumHypothesisState)) (c : ℝ) :
    ((l.map (fun p => (p.1, { p.2 with amplitude := p.2.amplitude * (c : ℂ) }))).map
      (fun p => p.2.probability)).sum =
    (l.map (fun p => p.2.probability)).sum * c ^ 2 := by
  induction l with
  | nil => simp
  | cons p t ih =>
    simp only [List.map_cons, List.sum_cons, ih]
    rw [probability_mul_real p.2 c]
    ring

/-- Renormalization really does bring the total Born probability back to 1
whenever the pre-normalization total is positive. -/
theorem totalProb_normalize (r : QuantumScientificReasoner)
    (h : 0 < totalProb r) : totalProb (normalizeSuperposition r) = 1 := by
  have hne : totalProb r ≠ 0 := ne_of_gt h
  unfold normalizeSuperposition
  rw [if_pos h]
  show ((r.hypothesis_superpositions.map
      (fun p : String × QuantumHypothesisState => (p.1, { p.2 with amplitude :=
        p.2.amplitude * ((1 / Real.sqrt (totalProb r) : ℝ) : ℂ) }))).map
    (fun p : String × QuantumHypothesisState => p.2.probability)).sum = 1
  rw [sum_prob_scale, div_pow, one_pow, Real.sq_sqrt h.le]
  show totalProb r * (1 / totalProb r) = 1
  field_simp

/-- C1 (amended): after `apply_evidence` on a registered hypothesis whose
state has no entangled neighbors (and whose post-scaling total probability is
positive), the total Born probability over all registered states is exactly 1.
With entangled neighbors the invariant fails, because the neighbor scaling by
`1 + 0.2*strength` happens after the renormalization (see the
counterexample). -/
theorem C1_apply_evidence_renormalizes (now : Nat) (ev : Evidence) (rate : ℝ)
    (r : QuantumScientificReasoner) (st : QuantumHypothesisState)
    (hreg : alookup r.hypothesis_superpositions ev.hypothesis_id = some st)
    (hlinks : st.entanglement_links = [])
    (hpos : 0 < totalProb (scaleEvidence ev r)) :
    totalProb (applyEvidence now ev rate r) = 1 := by
  unfold applyEvidence
  rw [hreg]
  simp only [hlinks, propagateEntangled, List.foldl_nil]
  exact totalProb_normalize _ hpos

def hW : Hypothesis := ⟨"h1", "s", 0.5, 0.5, 0.5, 0.5, [], []⟩

def evW : Evidence := ⟨"e1", "h1", .numeric 0⟩

noncomputable def rW : QuantumScientificReasoner :=
  ⟨[("h1", ⟨hW, 1, 0, []⟩)], [], [], [], []⟩

/-- Witness for C1 on a concrete one-hypothesis reasoner. -/
theorem C1_witness : totalProb (applyEvidence 0 evW 0.1 rW) = 1 := by
  apply C1_apply_evidence_renormalizes 0 evW 0.1 rW ⟨hW, 1, 0, []⟩
  · simp [rW, alookup, evW]
  · rfl
  · simp only [scaleEvidence, evW, evidenceStrengthVal, rW, amodify, totalProb,
      QuantumHypothesisState.probability]
    norm_num [List.map, Complex.abs_ofReal]

def hX2 : Hypothesis := ⟨"h2", "s", 0.5, 0.5, 0.5, 0.5, [], []⟩

def evX : Evidence := ⟨"e1", "h1", .numeric 1⟩

/-- Two mutually entangled hypotheses, with amplitudes 2/5 and 4/5 (total Born
probability after the evidence scaling is exactly 1, so renormalization leaves
the amplitudes unchanged and the effect of the neighbor propagation is
isolated). -/
noncomputable def rX : QuantumScientificReasoner :=
  ⟨[("h1", ⟨hW, ((2/5 : ℝ) : ℂ), 0, ["h2"]⟩),
    ("h2", ⟨hX2, ((4/5 : ℝ) : ℂ), 0, ["h1"]⟩)], [], [], [], []⟩

/-- C1 counterexample: applying evidence of strength 1 to `"h1"`, which has the
entangled neighbor `"h2"`, leaves total probability 801/625 ≈ 1.28 — the claim
that the total is 1 within 1e-9 after every `apply_evidence` call, including
ones with entangled neighbors, is false. -/
theorem C1_counterexample :
    totalProb (applyEvidence 0 evX 0.1 rX) = 801 / 625 ∧
    ¬ |totalProb (applyEvidence 0 evX 0.1 rX) - 1| ≤ 1e-9 := by
  have hT : totalProb (scaleEvidence evX rX) = 1 := by
    simp [scaleEvidence, evX, evidenceStrengthVal, rX, amodify, totalProb,
      QuantumHypothesisState.probability, map_mul, map_one, Complex.abs_ofReal]
    norm_num
  have hmain : totalProb (applyEvidence 0 evX 0.1 rX) = 801 / 625 := by
    unfold applyEvidence
    rw [show alookup rX.hypothesis_superpositions evX.hypothesis_id =
      some ⟨hW, ((2/5 : ℝ) : ℂ), 0, ["h2"]⟩ from by simp [rX, alookup, evX]]
    unfold normalizeSuperposition
    rw [hT, if_pos (by norm_num : (1 : ℝ) > 0)]
    simp [scaleEvidence, evX, evidenceStrengthVal, rX, amodify, totalProb,
      QuantumHypothesisState.probability, propagateEntangled, alookup,
      map_mul, map_one, Complex.abs_ofReal, mul_pow, sq_abs, Real.sqrt_one]
    norm_num
  refine ⟨hmain, ?_⟩
  rw [hmain, show (801 / 625 - 1 : ℝ) = 176 / 625 by norm_num,
    abs_of_nonneg (by norm_num : (0:ℝ) ≤ 176 / 625)]
  norm_num

/-! ## C8: the recorded "pre_amplitude" -/

def hC8 : Hypothesis := ⟨"h1", "s", 0.5, 0.5, 0.5, 0.5, [], []⟩

def evC8 : Evidence := ⟨"e1", "h1", .numeric 1⟩

/-- One registered hypothesis with amplitude 2/3 (so that the scaled amplitude
is exactly 1 and renormalization is the identity). -/
noncomputable def rC8 : QuantumScientificReasoner :=
  ⟨[("h1", ⟨hC8, ((2/3 : ℝ) : ℂ), 0, []⟩)], [], [], [], []⟩

/-- C8: `apply_evidence` appends exactly one decoherence record with the right
timestamp, ids, strength and rate — but the amplitude stored under
`"pre_amplitude"` is the post-scaling, post-renormalization amplitude (1 here),
not the amplitude the hypothesis held before the call (2/3 here). -/
theorem C8_pre_amplitude_is_post_update :
    ((applyEvidence 7 evC8 0.1 rC8).decoherence_history.map
      (fun e => (e.timestamp, e.hypothesis_id, e.evidence_id, e.pre_amplitude,
        e.evidence_strength, e.decoherence_rate))) =
      [(7, "h1", "e1", (1 : ℂ), (1 : ℝ), (0.1 : ℝ))] ∧
    rC8.hypothesis_superpositions.map (fun p => p.2.amplitude) =
      [((2/3 : ℝ) : ℂ)] ∧
    (1 : ℂ) ≠ ((2/3 : ℝ) : ℂ) := by
  have hT : totalProb (scaleEvidence evC8 rC8) = 1 := by
    simp [scaleEvidence, evC8, evidenceStrengthVal, rC8, amodify, totalProb,
      QuantumHypothesisState.probability, map_mul, map_one, Complex.abs_ofReal]
    norm_num
  refine ⟨?_, by simp [rC8], by norm_num [Complex.ext_iff]⟩
  unfold applyEvidence
  rw [show alookup rC8.hypothesis_superpositions evC8.hypothesis_id =
    some ⟨hC8, ((2/3 : ℝ) : ℂ), 0, []⟩ from by simp [rC8, alookup, evC8]]
  unfold normalizeSuperposition
  rw [hT, if_pos (by norm_num : (1 : ℝ) > 0)]
  simp [scaleEvidence, evC8, evidenceStrengthVal, rC8, amodify, alookup,
    propagateEntangled, Real.sqrt_one]
  norm_num

/-! ## C5: prediction type and novelty bands -/

def hC5 : Hypothesis := ⟨"h5", "s", 0.5, 0.5, 0.5, 0.5, [], []⟩

/-- C5 (amended): `generate_quantum_predictions` on a registered hypothesis
returns `n` predictions, deterministic in the current amplitude, whose type and
novelty are a function of `np.angle(amplitude)` — which lies in `(-π, π]`, not
`[0, 2π)`: the bands are `[0, π/2) → (direct_effect, 0.3)`,
`[π/2, π) → (moderating_effect, 0.6)`, the degenerate `{π} → (mediating_effect,
0.8)` (the code's `[π, 3π/2)` band intersected with the range of `np.angle`),
and `(-π, 0) → (emergent_effect, 0.9)`; the n predictions differ only in the
generation index inside their id. -/
theorem C5_phase_bands (r : QuantumScientificReasoner) (id : String)
    (st : QuantumHypothesisState) (n : Nat)
    (hreg : alookup r.hypothesis_superpositions id = some st) :
    (generateQuantumPredictions id n r).length = n ∧
    (∀ p ∈ generateQuantumPredictions id n r,
      p.hypothesis_id = id ∧
      p.confidence = min 0.95 (st.probability * 1.2) ∧
      p.phase = Complex.arg st.amplitude ∧
      ((0 ≤ Complex.arg st.amplitude ∧ Complex.arg st.amplitude < Real.pi / 2) →
        p.type = "direct_effect" ∧ p.novelty = 0.3) ∧
      ((Real.pi / 2 ≤ Complex.arg st.amplitude ∧
        Complex.arg st.amplitude < Real.pi) →
        p.type = "moderating_effect" ∧ p.novelty = 0.6) ∧
      (Complex.arg st.amplitude = Real.pi →
        p.type = "mediating_effect" ∧ p.novelty = 0.8) ∧
      (Complex.arg st.amplitude < 0 →
        p.type = "emergent_effect" ∧ p.novelty = 0.9)) ∧
    ((Real.pi ≤ Complex.arg st.amplitude ∧
      Complex.arg st.amplitude < 3 * Real.pi / 2) ↔
      Complex.arg st.amplitude = Real.pi) ∧
    (∀ p ∈ generateQuantumPredictions id n r,
      ∀ q ∈ generateQuantumPredictions id n r, p = { q with id := p.id }) := by
  have hpi := Real.pi_pos
  unfold generateQuantumPredictions
  rw [hreg]
  refine ⟨by simp, ?_, ?_, ?_⟩
  · intro p hp
    rcases List.mem_map.mp hp with ⟨i, _, hi⟩
    subst hi
    refine ⟨rfl, rfl, rfl, ?_, ?_, ?_, ?_⟩
    · rintro ⟨h1, h2⟩
      dsimp only
      rw [if_pos ⟨h1, h2⟩]
      exact ⟨rfl, rfl⟩
    · rintro ⟨h1, h2⟩
      dsimp only
      rw [if_neg (by rintro ⟨_, hlt⟩; linarith), if_pos ⟨h1, h2⟩]
      exact ⟨rfl, rfl⟩
    · intro hpi2
      dsimp only
      rw [if_neg (by rintro ⟨_, hlt⟩; rw [hpi2] at hlt; linarith),
        if_neg (by rintro ⟨_, hlt⟩; rw [hpi2] at hlt; linarith),
        if_pos ⟨le_of_eq hpi2.symm, by rw [hpi2]; linarith⟩]
      exact ⟨rfl, rfl⟩
    · intro hneg
      dsimp only
      rw [if_neg (by rintro ⟨hge, _⟩; linarith),
        if_neg (by rintro ⟨hge, _⟩; linarith),
        if_neg (by rintro ⟨hge, _⟩; linarith)]
      exact ⟨rfl, rfl⟩
  · constructor
    · rintro ⟨h1, _⟩
      exact le_antisymm (Complex.arg_le_pi st.amplitude) h1
    · intro h
      rw [h]
      exact ⟨le_refl _, by linarith⟩
  · intro p hp q hq
    rcases List.mem_map.mp hp with ⟨i, _, hi⟩
    rcases List.mem_map.mp hq with ⟨j, _, hj⟩
    subst hi
    subst hj
    rfl

/-- Registered hypothesis with amplitude 1 (phase angle 0). -/
noncomputable def rC5w : QuantumScientificReasoner :=
  ⟨[("h5", ⟨hC5, 1, 0, []⟩)], [], [], [], []⟩

/-- Witness for C5 at amplitude 1: two predictions, both of type
`direct_effect`. -/
theorem C5_witness :
    (generateQuantumPredictions "h5" 2 rC5w).length = 2 ∧
    ∀ p ∈ generateQuantumPredictions "h5" 2 rC5w,
      p.type = "direct_effect" ∧ p.novelty = 0.3 := by
  have h := C5_phase_bands rC5w "h5" ⟨hC5, 1, 0, []⟩ 2 (by simp [rC5w, alookup])
  refine ⟨h.1, fun p hp => ?_⟩
  have hband := (h.2.1 p hp).2.2.2.1
  apply hband
  show (0 ≤ Complex.arg (1 : ℂ) ∧ Complex.arg (1 : ℂ) < Real.pi / 2)
  rw [Complex.arg_one]
  exact ⟨le_refl 0, by linarith [Real.pi_pos]⟩

/-- Modelled from the spec: the phase angle represented in `[0, 2π)` (the spec
describes the prediction bands as "which quadrant of [0,2π) the phase angle
falls into"; the code has no such representation — it branches on `np.angle`,
whose range is `(-π, π]`). -/
noncomputable def phaseInTwoPi (z : ℂ) : ℝ :=
  if Complex.arg z < 0 then Complex.arg z + 2 * Real.pi else Complex.arg z

/-- Modelled from the spec: the claimed four quadrant bands of `[0, 2π)` with
their four fixed (type, novelty) pairs. -/
noncomputable def specQuadrantTypeNovelty (θ : ℝ) : String × ℝ :=
  if θ < Real.pi / 2 then ("direct_effect", 0.3)
  else if θ < Real.pi then ("moderating_effect", 0.6)
  else if θ < 3 * Real.pi / 2 then ("mediating_effect", 0.8)
  else ("emergent_effect", 0.9)

/-- Registered hypothesis with amplitude `-1-i`: its phase angle, viewed in
`[0, 2π)`, is `5π/4`. -/
noncomputable def rC5x : QuantumScientificReasoner :=
  ⟨[("h5", ⟨hC5, -1 - Complex.I, 0, []⟩)], [], [], [], []⟩

theorem arg_neg_one_sub_I : Complex.arg (-1 - Complex.I) = -(3 * Real.pi / 4) := by
  have hpi := Real.pi_pos
  have hss : Real.sqrt 2 * Real.sqrt 2 = 2 :=
    Real.mul_self_sqrt (by norm_num : (0:ℝ) ≤ 2)
  have hc : Real.cos (-(3 * Real.pi / 4)) = -(Real.sqrt 2 / 2) := by
    rw [Real.cos_neg, show (3 * Real.pi / 4) = Real.pi - Real.pi / 4 by ring,
      Real.cos_pi_sub, Real.cos_pi_div_four]
  have hs : Real.sin (-(3 * Real.pi / 4)) = -(Real.sqrt 2 / 2) := by
    rw [Real.sin_neg, show (3 * Real.pi / 4) = Real.pi - Real.pi / 4 by ring,
      Real.sin_pi_sub, Real.sin_pi_div_four]
  have hθ : -(3 * Real.pi / 4) ∈ Set.Ioc (-Real.pi) Real.pi :=
    ⟨by linarith, by linarith⟩
  have key := Complex.arg_cos_add_sin_mul_I hθ
  rw [← Complex.ofReal_cos, ← Complex.ofReal_sin, hc, hs] at key
  have heq : ((Real.sqrt 2 : ℝ) : ℂ) *
      (((-(Real.sqrt 2 / 2) : ℝ) : ℂ) + ((-(Real.sqrt 2 / 2) : ℝ) : ℂ) * Complex.I) =
      -1 - Complex.I := by
    have hval : Real.sqrt 2 * -(Real.sqrt 2 / 2) = -1 := by
      rw [show Real.sqrt 2 * -(Real.sqrt 2 / 2) =
        -(Real.sqrt 2 * Real.sqrt 2) / 2 by ring, hss]
      norm_num
    simp [Complex.ext_iff, hval]
  rw [← heq, Complex.arg_real_mul _ (Real.sqrt_pos.mpr (by norm_num : (0:ℝ) < 2))]
  exact key

/-- C5 counterexample: a state with amplitude `-1-i` has phase angle `5π/4`
when represented in `[0, 2π)`, which falls in the third quadrant band
`[π, 3π/2)` — the claimed pair is `(mediating_effect, 0.8)` — but the code
branches on `np.angle = -3π/4 < 0` and produces `(emergent_effect, 0.9)`. -/
theorem C5_counterexample :
    (generateQuantumPredictions "h5" 1 rC5x).map (fun p => (p.type, p.novelty)) =
      [("emergent_effect", (0.9 : ℝ))] ∧
    Real.pi ≤ phaseInTwoPi (-1 - Complex.I) ∧
    phaseInTwoPi (-1 - Complex.I) < 3 * Real.pi / 2 ∧
    specQuadrantTypeNovelty (phaseInTwoPi (-1 - Complex.I)) =
      ("mediating_effect", (0.8 : ℝ)) ∧
    ("emergent_effect", (0.9 : ℝ)) ≠ ("mediating_effect", (0.8 : ℝ)) := by
  have hpi := Real.pi_pos
  have harg := arg_neg_one_sub_I
  have hphase : phaseInTwoPi (-1 - Complex.I) = 5 * Real.pi / 4 := by
    unfold phaseInTwoPi
    rw [harg, if_pos (by linarith)]
    ring
  refine ⟨?_, ?_, ?_, ?_, ?_⟩
  · unfold generateQuantumPredictions
    rw [show alookup rC5x.hypothesis_superpositions "h5" =
      some ⟨hC5, -1 - Complex.I, 0, []⟩ from by simp [rC5x, alookup]]
    rw [show (List.range 1) = [0] from rfl]
    simp only [List.map_cons, List.map_nil]
    rw [if_neg (by rintro ⟨hge, _⟩; rw [harg] at hge; linarith),
      if_neg (by rintro ⟨hge, _⟩; rw [harg] at hge; linarith),
      if_neg (by rintro ⟨hge, _⟩; rw [harg] at hge; linarith)]
  · rw [hphase]; linarith
  · rw [hphase]; linarith
  · unfold specQuadrantTypeNovelty
    rw [hphase, if_neg (by intro h; linarith), if_neg (by intro h; linarith),
      if_pos (by linarith)]
  · intro h
    have := congrArg Prod.fst h
    simp at this

/-! ## C6/C7: operation sequences over the reasoner -/

/-- The four public reasoner operations; each constructor carries the call's
arguments, with the randomly sampled phase made explicit. -/
inductive ReasonerOp where
  | add (phase : ℝ) (h : Hypothesis) (amp : ℂ)
  | entangle (id1 id2 : String) (strength : ℝ)
  | evidence (now : Nat) (ev : Evidence) (rate : ℝ)
  | interfere (id1 id2 : String)

noncomputable def runOp (op : ReasonerOp) (r : QuantumScientificReasoner) :
    QuantumScientificReasoner :=
  match op with
  | .add ph h amp => addHypothesisSuperposition ph h amp r
  | .entangle i j s => entangleHypotheses i j s r
  | .evidence now ev rate => applyEvidence now ev rate r
  | .interfere i j => (computeInterference i j r).2

noncomputable def runOps (ops : List ReasonerOp) (r : QuantumScientificReasoner) :
    QuantumScientificReasoner :=
  ops.foldl (fun acc op => runOp op acc) r

/-- The entanglement-links list of a registered hypothesis (`none` when the id
is unknown). -/
noncomputable def linksOf (r : QuantumScientificReasoner) (a : String) :
    Option (List String) :=
  (alookup r.hypothesis_superpositions a).map (fun st => st.entanglement_links)

/-- Entanglement symmetry: `B` is linked from `A` iff `A` is linked from `B`,
for every pair of registered hypotheses. -/
def SymLinks (r : QuantumScientificReasoner) : Prop :=
  ∀ a b la lb, linksOf r a = some la → linksOf r b = some lb →
    (b ∈ la ↔ a ∈ lb)

/-- Every id stored in some entanglement-links list is itself registered. -/
def LinksRegistered (r : QuantumScientificReasoner) : Prop :=
  ∀ a la, linksOf r a = some la → ∀ b ∈ la, (linksOf r b).isSome

/-- An operation is "fresh" in a state when, if it is an `add`, its hypothesis
id is not yet registered (re-adding an already registered hypothesis resets
that hypothesis's links one-sidedly). -/
def FreshOp (r : QuantumScientificReasoner) : ReasonerOp → Prop
  | .add _ h _ => alookup r.hypothesis_superpositions h.id = none
  | _ => True

/-- An operation sequence in which every `add` uses a fresh hypothesis id. -/
inductive FreshRun : QuantumScientificReasoner → List ReasonerOp → Prop where
  | nil (r : QuantumScientificReasoner) : FreshRun r []
  | cons (r : QuantumScientificReasoner) (op : ReasonerOp) (ops : List ReasonerOp) :
      FreshOp r op → FreshRun (runOp op r) ops → FreshRun r (op :: ops)

/-- Links view at the superposition-dict level. -/
noncomputable def linksOfS (sups : List (String × QuantumHypothesisState))
    (a : String) : Option (List String) :=
  (alookup sups a).map (fun st => st.entanglement_links)

theorem linksOf_eq_linksOfS (r : QuantumScientificReasoner) (a : String) :
    linksOf r a = linksOfS r.hypothesis_superpositions a := rfl

theorem linksOfS_amodify_keep (sups : List (String × QuantumHypothesisState))
    (k : String) (g : QuantumHypothesisState → QuantumHypothesisState)
    (hg : ∀ st, (g st).entanglement_links = st.entanglement_links) (a : String) :
    linksOfS (amodify sups k g) a = linksOfS sups a := by
  unfold linksOfS
  rw [alookup_amodify]
  by_cases h : a = k
  · rw [if_pos h]
    rcases alookup sups a with _ | st
    · rfl
    · simp [hg]
  · rw [if_neg h]

theorem linksOfS_map_keep (sups : List (String × QuantumHypothesisState))
    (g : QuantumHypothesisState → QuantumHypothesisState)
    (hg : ∀ st, (g st).entanglement_links = st.entanglement_links) (a : String) :
    linksOfS (sups.map (fun p => (p.1, g p.2))) a = linksOfS sups a := by
  unfold linksOfS
  rw [alookup_map_value]
  rcases alookup sups a with _ | st
  · rfl
  · simp [hg]

/-- Rewriting only the amplitude of one entry leaves every links view
unchanged. -/
theorem linksOfS_amodify_amp (sups : List (String × QuantumHypothesisState))
    (k : String) (f : QuantumHypothesisState → ℂ) (a : String) :
    linksOfS (amodify sups k (fun st => { st with amplitude := f st })) a =
      linksOfS sups a :=
  linksOfS_amodify_keep sups k
    (fun st => { st with amplitude := f st }) (fun _ => rfl) a

theorem linksOfS_propagate (links : List String) (s : ℝ)
    (sups : List (String × QuantumHypothesisState)) (a : String) :
    linksOfS (propagateEntangled links s sups) a = linksOfS sups a := by
  induction links generalizing sups with
  | nil => rfl
  | cons e t ih =>
    show linksOfS (propagateEntangled t s _) a = _
    rw [ih]
    dsimp only
    by_cases h : (alookup sups e).isSome
    · rw [if_pos h, linksOfS_amodify_amp]
    · rw [if_neg h]

theorem linksOf_scale (ev : Evidence) (r : QuantumScientificReasoner) (a : String) :
    linksOf (scaleEvidence ev r) a = linksOf r a := by
  unfold scaleEvidence
  rw [linksOf_eq_linksOfS, linksOf_eq_linksOfS]
  dsimp only
  rw [linksOfS_amodify_amp]

theorem linksOf_normalize (r : QuantumScientificReasoner) (a : String) :
    linksOf (normalizeSuperposition r) a = linksOf r a := by
  unfold normalizeSuperposition
  by_cases h : totalProb r > 0
  · rw [if_pos h, linksOf_eq_linksOfS, linksOf_eq_linksOfS]
    dsimp only
    exact linksOfS_map_keep r.hypothesis_superpositions
      (fun st => { st with
        amplitude := st.amplitude * ((1 / Real.sqrt (totalProb r) : ℝ) : ℂ) })
      (fun st => rfl) a
  · rw [if_neg h]

theorem linksOf_applyEvidence (now : Nat) (ev : Evidence) (rate : ℝ)
    (r : QuantumScientificReasoner) (a : String) :
    linksOf (applyEvidence now ev rate r) a = linksOf r a := by
  unfold applyEvidence
  rcases hl : alookup r.hypothesis_superpositions ev.hypothesis_id with _ | st
  · rfl
  · dsimp only
    rw [linksOf_eq_linksOfS]
    dsimp only
    rw [linksOfS_propagate]
    show linksOfS
      (normalizeSuperposition (scaleEvidence ev r)).hypothesis_superpositions a = _
    rw [← linksOf_eq_linksOfS, linksOf_normalize, linksOf_scale]

theorem sups_interfere (i j : String) (r : QuantumScientificReasoner) :
    ((computeInterference i j r).2).hypothesis_superpositions =
      r.hypothesis_superpositions := by
  unfold computeInterference
  rcases h1 : alookup r.hypothesis_superpositions i with _ | s1 <;>
    rcases h2 : alookup r.hypothesis_superpositions j with _ | s2 <;> rfl

theorem linksOf_interfere (i j : String) (r : QuantumScientificReasoner)
    (a : String) : linksOf ((computeInterference i j r).2) a = linksOf r a := by
  rw [linksOf_eq_linksOfS, sups_interfere, ← linksOf_eq_linksOfS]

theorem linksOf_add (ph : ℝ) (h : Hypothesis) (amp : ℂ)
    (r : QuantumScientificReasoner) (a : String) :
    linksOf (addHypothesisSuperposition ph h amp r) a =
      if a = h.id then some [] else linksOf r a := by
  unfold addHypothesisSuperposition linksOf
  rw [alookup_aset]
  by_cases ha : a = h.id
  · rw [if_pos ha, if_pos ha]
    rfl
  · rw [if_neg ha, if_neg ha]

theorem linksOf_entangle (i j : String) (s : ℝ) (r : QuantumScientificReasoner)
    (s1 s2 : QuantumHypothesisState)
    (h1 : alookup r.hypothesis_superpositions i = some s1)
    (h2 : alookup r.hypothesis_superpositions j = some s2) (a : String) :
    linksOf (entangleHypotheses i j s r) a =
      if a = j then
        some ((if j = i then s1.entanglement_links ++ [j]
               else s2.entanglement_links) ++ [i])
      else if a = i then some (s1.entanglement_links ++ [j])
      else linksOf r a := by
  unfold entangleHypotheses
  rw [h1, h2]
  rw [linksOf_eq_linksOfS]
  dsimp only
  rw [linksOfS_amodify_amp, linksOfS_amodify_amp]
  unfold linksOfS
  rw [alookup_amodify]
  by_cases haj : a = j
  · subst haj
    rw [if_pos rfl, if_pos rfl, alookup_amodify]
    by_cases hai : a = i
    · subst hai
      rw [if_pos rfl, if_pos rfl, h1]
      simp
    · rw [if_neg hai, h2, if_neg hai]
      simp
  · rw [if_neg haj, if_neg haj, alookup_amodify]
    by_cases hai : a = i
    · subst hai
      rw [if_pos rfl, if_pos rfl, h1]
      simp
    · rw [if_neg hai, if_neg hai]
      rfl

/-- `entangle_hypotheses` is the identity when either id is unregistered. -/
theorem entangle_unreg (i j : String) (s : ℝ) (r : QuantumScientificReasoner)
    (h : alookup r.hypothesis_superpositions i = none ∨
         alookup r.hypothesis_superpositions j = none) :
    entangleHypotheses i j s r = r := by
  unfold entangleHypotheses
  rcases hi : alookup r.hypothesis_superpositions i with _ | s1 <;>
    rcases hj : alookup r.hypothesis_superpositions j with _ | s2 <;> try rfl
  rcases h with h | h
  · exact Option.noConfusion (h.symm.trans hi)
  · exact Option.noConfusion (h.symm.trans hj)

theorem linksOf_isSome_of_reg (r : QuantumScientificReasoner) (x : String)
    (st : QuantumHypothesisState)
    (h : alookup r.hypothesis_superpositions x = some st) :
    linksOf r x = some st.entanglement_links := by
  unfold linksOf
  rw [h]
  rfl

/-- Membership in an entanglement-links list after `entangle_hypotheses` (both
ids registered): the old links plus the two new directed entries. -/
theorem mem_linksOf_entangle (i j : String) (s : ℝ)
    (r : QuantumScientificReasoner) (s1 s2 : QuantumHypothesisState)
    (hi : alookup r.hypothesis_superpositions i = some s1)
    (hj : alookup r.hypothesis_superpositions j = some s2)
    (x y : String) (lx : List String)
    (hx : linksOf (entangleHypotheses i j s r) x = some lx) :
    y ∈ lx ↔ ((∃ l0, linksOf r x = some l0 ∧ y ∈ l0) ∨
      (x = i ∧ y = j) ∨ (x = j ∧ y = i)) := by
  have hli := linksOf_isSome_of_reg r i s1 hi
  have hlj := linksOf_isSome_of_reg r j s2 hj
  rw [linksOf_entangle i j s r s1 s2 hi hj x] at hx
  by_cases hxj : x = j
  · subst hxj
    rw [if_pos rfl] at hx
    replace hx := Option.some.inj hx
    subst hx
    by_cases hxi : x = i
    · subst hxi
      have hs12 : s1 = s2 := Option.some.inj (hi.symm.trans hj)
      subst hs12
      rw [if_pos rfl]
      simp only [List.mem_append, List.mem_singleton, hli, Option.some.injEq]
      constructor
      · rintro ((hy | hy) | hy)
        · exact Or.inl ⟨s1.entanglement_links, rfl, hy⟩
        · exact Or.inr (Or.inl ⟨trivial, hy⟩)
        · exact Or.inr (Or.inl ⟨trivial, hy⟩)
      · rintro (⟨l0, hl0, hy⟩ | ⟨_, hy⟩ | ⟨_, hy⟩)
        · rw [hl0.symm] at hy
          exact Or.inl (Or.inl hy)
        · exact Or.inl (Or.inr hy)
        · exact Or.inl (Or.inr hy)
    · rw [if_neg hxi]
      simp only [List.mem_append, List.mem_singleton, hlj, Option.some.injEq]
      constructor
      · rintro (hy | hy)
        · exact Or.inl ⟨s2.entanglement_links, rfl, hy⟩
        · exact Or.inr (Or.inr ⟨trivial, hy⟩)
      · rintro (⟨l0, hl0, hy⟩ | ⟨hxi2, hy⟩ | ⟨_, hy⟩)
        · rw [hl0.symm] at hy
          exact Or.inl hy
        · exact absurd hxi2 hxi
        · exact Or.inr hy
  · rw [if_neg hxj] at hx
    by_cases hxi : x = i
    · subst hxi
      rw [if_pos rfl] at hx
      replace hx := Option.some.inj hx
      subst hx
      simp only [List.mem_append, List.mem_singleton, hli, Option.some.injEq]
      constructor
      · rintro (hy | hy)
        · exact Or.inl ⟨s1.entanglement_links, rfl, hy⟩
        · exact Or.inr (Or.inl ⟨trivial, hy⟩)
      · rintro (⟨l0, hl0, hy⟩ | ⟨_, hy⟩ | ⟨hxj2, hy⟩)
        · rw [hl0.symm] at hy
          exact Or.inl hy
        · exact Or.inr hy
        · exact absurd hxj2 hxj
    · rw [if_neg hxi] at hx
      constructor
      · intro hy
        exact Or.inl ⟨lx, hx, hy⟩
      · rintro (⟨l0, hl0, hy⟩ | ⟨hxi2, _⟩ | ⟨hxj2, _⟩)
        · rw [hx] at hl0
          replace hl0 := Option.some.inj hl0
          rw [← hl0] at hy
          exact hy
        · exact absurd hxi2 hxi
        · exact absurd hxj2 hxj

/-- The registered-id domain is unchanged by `entangle_hypotheses`. -/
theorem isSome_linksOf_entangle (i j : String) (s : ℝ)
    (r : QuantumScientificReasoner) (s1 s2 : QuantumHypothesisState)
    (hi : alookup r.hypothesis_superpositions i = some s1)
    (hj : alookup r.hypothesis_superpositions j = some s2) (x : String) :
    (linksOf (entangleHypotheses i j s r) x).isSome = (linksOf r x).isSome := by
  have hli := linksOf_isSome_of_reg r i s1 hi
  have hlj := linksOf_isSome_of_reg r j s2 hj
  rw [linksOf_entangle i j s r s1 s2 hi hj x]
  by_cases hxj : x = j
  · rw [if_pos hxj, hxj, hlj]
    rfl
  · rw [if_neg hxj]
    by_cases hxi : x = i
    · rw [if_pos hxi, hxi, hli]
      rfl
    · rw [if_neg hxi]

/-- Both link invariants transfer across a pointwise-equal links view. -/
theorem inv_of_linksOf_eq (r rp : QuantumScientificReasoner)
    (h : ∀ a, linksOf rp a = linksOf r a)
    (hs : SymLinks r) (hreg : LinksRegistered r) :
    SymLinks rp ∧ LinksRegistered rp := by
  constructor
  · intro a b la lb hla hlb
    exact hs a b la lb ((h a).symm.trans hla) ((h b).symm.trans hlb)
  · intro a la hla b hb
    rw [h b]
    exact hreg a la ((h a).symm.trans hla) b hb

/-- Adding a hypothesis under a fresh id preserves both link invariants. -/
theorem inv_add (ph : ℝ) (hyp : Hypothesis) (amp : ℂ)
    (r : QuantumScientificReasoner)
    (hfresh : alookup r.hypothesis_superpositions hyp.id = none)
    (hs : SymLinks r) (hreg : LinksRegistered r) :
    SymLinks (addHypothesisSuperposition ph hyp amp r) ∧
    LinksRegistered (addHypothesisSuperposition ph hyp amp r) := by
  have hnone : linksOf r hyp.id = none := by
    unfold linksOf
    rw [hfresh]
    rfl
  constructor
  · intro a b la lb hla hlb
    rw [linksOf_add] at hla hlb
    by_cases ha : a = hyp.id <;> by_cases hb : b = hyp.id
    · subst ha; subst hb
      rw [if_pos rfl] at hla hlb
      replace hla := Option.some.inj hla
      replace hlb := Option.some.inj hlb
      subst hla; subst hlb
      simp
    · subst ha
      rw [if_pos rfl] at hla
      rw [if_neg hb] at hlb
      replace hla := Option.some.inj hla
      subst hla
      constructor
      · intro hmem
        exact absurd hmem (List.not_mem_nil b)
      · intro hmem
        have hsome := hreg b lb hlb _ hmem
        rw [hnone] at hsome
        exact absurd hsome (by simp)
    · subst hb
      rw [if_pos rfl] at hlb
      rw [if_neg ha] at hla
      replace hlb := Option.some.inj hlb
      subst hlb
      constructor
      · intro hmem
        have hsome := hreg a la hla _ hmem
        rw [hnone] at hsome
        exact absurd hsome (by simp)
      · intro hmem
        exact absurd hmem (List.not_mem_nil a)
    · rw [if_neg ha] at hla
      rw [if_neg hb] at hlb
      exact hs a b la lb hla hlb
  · intro a la hla b hb
    rw [linksOf_add] at hla ⊢
    by_cases ha : a = hyp.id
    · rw [if_pos ha] at hla
      replace hla := Option.some.inj hla
      subst hla
      exact absurd hb (List.not_mem_nil b)
    · rw [if_neg ha] at hla
      by_cases hbid : b = hyp.id
      · rw [if_pos hbid]
        rfl
      · rw [if_neg hbid]
        exact hreg a la hla b hb

/-- Entangling preserves both link invariants (both directions are added in
the same call). -/
theorem inv_entangle (i j : String) (s : ℝ) (r : QuantumScientificReasoner)
    (hs : SymLinks r) (hreg : LinksRegistered r) :
    SymLinks (entangleHypotheses i j s r) ∧
    LinksRegistered (entangleHypotheses i j s r) := by
  rcases hi : alookup r.hypothesis_superpositions i with _ | s1
  · rw [entangle_unreg i j s r (Or.inl hi)]
    exact ⟨hs, hreg⟩
  rcases hj : alookup r.hypothesis_superpositions j with _ | s2
  · rw [entangle_unreg i j s r (Or.inr hj)]
    exact ⟨hs, hreg⟩
  have hli := linksOf_isSome_of_reg r i s1 hi
  have hlj := linksOf_isSome_of_reg r j s2 hj
  have hdom := isSome_linksOf_entangle i j s r s1 s2 hi hj
  have hmem := mem_linksOf_entangle i j s r s1 s2 hi hj
  have hregdom : ∀ x lx, linksOf (entangleHypotheses i j s r) x = some lx →
      (linksOf r x).isSome := by
    intro x lx hx
    rw [← hdom x, hx]
    rfl
  constructor
  · intro a b la lb hla hlb
    rw [hmem a b la hla, hmem b a lb hlb]
    have hra := hregdom a la hla
    have hrb := hregdom b lb hlb
    rcases Option.isSome_iff_exists.mp hra with ⟨wa, hwa⟩
    rcases Option.isSome_iff_exists.mp hrb with ⟨wb, hwb⟩
    have hsab := hs a b wa wb hwa hwb
    constructor
    · rintro (⟨l0, hl0, hyl⟩ | ⟨hai, hbj⟩ | ⟨haj, hbi⟩)
      · rw [hwa] at hl0
        replace hl0 := Option.some.inj hl0
        subst hl0
        exact Or.inl ⟨wb, hwb, hsab.mp hyl⟩
      · exact Or.inr (Or.inr ⟨hbj, hai⟩)
      · exact Or.inr (Or.inl ⟨hbi, haj⟩)
    · rintro (⟨l0, hl0, hyl⟩ | ⟨hbi, haj⟩ | ⟨hbj, hai⟩)
      · rw [hwb] at hl0
        replace hl0 := Option.some.inj hl0
        subst hl0
        exact Or.inl ⟨wa, hwa, hsab.mpr hyl⟩
      · exact Or.inr (Or.inr ⟨haj, hbi⟩)
      · exact Or.inr (Or.inl ⟨hai, hbj⟩)
  · intro a la hla b hb
    rw [hmem a b la hla] at hb
    rw [hdom b]
    rcases hb with ⟨l0, hl0, hyl⟩ | ⟨_, hbj⟩ | ⟨_, hbi⟩
    · exact hreg a l0 hl0 b hyl
    · subst hbj
      rw [hlj]
      rfl
    · subst hbi
      rw [hli]
      rfl

/-- A single fresh operation preserves both link invariants. -/
theorem inv_step (op : ReasonerOp) (r : QuantumScientificReasoner)
    (hfresh : FreshOp r op) (hs : SymLinks r) (hreg : LinksRegistered r) :
    SymLinks (runOp op r) ∧ LinksRegistered (runOp op r) := by
  cases op with
  | add ph hyp amp => exact inv_add ph hyp amp r hfresh hs hreg
  | entangle i j s => exact inv_entangle i j s r hs hreg
  | evidence now ev rate =>
    exact inv_of_linksOf_eq r _ (fun a => linksOf_applyEvidence now ev rate r a)
      hs hreg
  | interfere i j =>
    exact inv_of_linksOf_eq r _ (fun a => linksOf_interfere i j r a) hs hreg

theorem inv_runOps (ops : List ReasonerOp) (r : QuantumScientificReasoner)
    (hrun : FreshRun r ops) (hs : SymLinks r) (hreg : LinksRegistered r) :
    SymLinks (runOps ops r) ∧ LinksRegistered (runOps ops r) := by
  induction hrun with
  | nil r => exact ⟨hs, hreg⟩
  | cons r op ops hop hops ih =>
    have hstep := inv_step op r hop hs hreg
    exact ih hstep.1 hstep.2

/-- C6 (amended): starting from an empty reasoner, after any sequence of
`add_hypothesis_superposition` (with ids that are fresh at the time of each
call), `entangle_hypotheses`, `apply_evidence` and `compute_interference`
operations, the entanglement links are symmetric: `B` appears in `A`'s
`entanglement_links` iff `A` appears in `B`'s.  (Re-adding an
already-registered hypothesis resets its links one-sidedly and can break
symmetry — see the counterexample.) -/
theorem C6_entanglement_symmetric (ops : List ReasonerOp)
    (hrun : FreshRun emptyReasoner ops) :
    SymLinks (runOps ops emptyReasoner) := by
  have hs0 : SymLinks emptyReasoner := by
    intro a b la lb hla _
    exact absurd hla (by simp [linksOf, emptyReasoner, alookup])
  have hreg0 : LinksRegistered emptyReasoner := by
    intro a la hla
    exact absurd hla (by simp [linksOf, emptyReasoner, alookup])
  exact (inv_runOps ops emptyReasoner hrun hs0 hreg0).1

theorem alookup_add (ph : ℝ) (h : Hypothesis) (amp : ℂ)
    (r : QuantumScientificReasoner) (a : String) :
    alookup (addHypothesisSuperposition ph h amp r).hypothesis_superpositions a =
      if a = h.id then some ⟨h, amp / (Real.sqrt 2 : ℝ), ph, []⟩
      else alookup r.hypothesis_superpositions a := by
  unfold addHypothesisSuperposition
  dsimp only
  rw [alookup_aset]

def hA6 : Hypothesis := ⟨"A6", "s", 0.5, 0.5, 0.5, 0.5, [], []⟩

def hB6 : Hypothesis := ⟨"B6", "s", 0.5, 0.5, 0.5, 0.5, [], []⟩

/-- Add two hypotheses and entangle them: a fresh-id operation sequence. -/
noncomputable def opsC6 : List ReasonerOp :=
  [.add 0 hA6 1, .add 0 hB6 1, .entangle "A6" "B6" 0.5]

/-- Witness for C6: the fresh sequence add-add-entangle yields symmetric
links. -/
theorem C6_witness : SymLinks (runOps opsC6 emptyReasoner) := by
  apply C6_entanglement_symmetric
  refine FreshRun.cons _ _ _ rfl (FreshRun.cons _ _ _ ?_
    (FreshRun.cons _ _ _ trivial (FreshRun.nil _)))
  show alookup (runOp (.add 0 hA6 1) emptyReasoner).hypothesis_superpositions
    hB6.id = none
  rw [show runOp (.add 0 hA6 1) emptyReasoner =
    addHypothesisSuperposition 0 hA6 1 emptyReasoner from rfl, alookup_add]
  rw [if_neg (by simp [hA6, hB6])]
  rfl

/-- The same sequence followed by a re-add of the already registered `"A6"`. -/
noncomputable def opsC6x : List ReasonerOp :=
  [.add 0 hA6 1, .add 0 hB6 1, .entangle "A6" "B6" 0.5, .add 0 hA6 1]

noncomputable def rC6a : QuantumScientificReasoner :=
  addHypothesisSuperposition 0 hA6 1 emptyReasoner

noncomputable def rC6b : QuantumScientificReasoner :=
  addHypothesisSuperposition 0 hB6 1 rC6a

noncomputable def rC6c : QuantumScientificReasoner :=
  entangleHypotheses "A6" "B6" 0.5 rC6b

/-- C6 counterexample: re-adding `"A6"` (an operation from the claim's own
list) resets `"A6"`'s entanglement links to `[]` while `"B6"` still links back
to `"A6"` — the entanglement relation ends up asymmetric, so symmetry does not
hold after arbitrary sequences of the four operations. -/
theorem C6_counterexample : ¬ SymLinks (runOps opsC6x emptyReasoner) := by
  intro hsym
  have hrw : runOps opsC6x emptyReasoner =
      addHypothesisSuperposition 0 hA6 1 rC6c := rfl
  have hA : alookup rC6b.hypothesis_superpositions "A6" =
      some ⟨hA6, (1 : ℂ) / ((Real.sqrt 2 : ℝ) : ℂ), 0, []⟩ := by
    rw [show rC6b = addHypothesisSuperposition 0 hB6 1 rC6a from rfl, alookup_add]
    rw [if_neg (by simp [hB6])]
    rw [show rC6a = addHypothesisSuperposition 0 hA6 1 emptyReasoner from rfl,
      alookup_add]
    rw [if_pos (by simp [hA6])]
  have hB : alookup rC6b.hypothesis_superpositions "B6" =
      some ⟨hB6, (1 : ℂ) / ((Real.sqrt 2 : ℝ) : ℂ), 0, []⟩ := by
    rw [show rC6b = addHypothesisSuperposition 0 hB6 1 rC6a from rfl, alookup_add]
    rw [if_pos (by simp [hB6])]
  have h1 : linksOf (runOps opsC6x emptyReasoner) "A6" = some [] := by
    rw [hrw, linksOf_add, if_pos (by simp [hA6])]
  have h2 : linksOf (runOps opsC6x emptyReasoner) "B6" = some ["A6"] := by
    rw [hrw, linksOf_add, if_neg (by simp [hA6])]
    rw [show rC6c = entangleHypotheses "A6" "B6" 0.5 rC6b from rfl,
      linksOf_entangle "A6" "B6" 0.5 rC6b _ _ hA hB "B6"]
    rw [if_pos rfl, if_neg (by simp)]
    rfl
  have hcontra := hsym "A6" "B6" [] ["A6"] h1 h2
  simp at hcontra

/-! ## C7: unknown-id operations are silent no-ops -/

/-- C7 (amended): every reasoner operation handed an unregistered hypothesis
id leaves the reasoner completely unchanged (superpositions, entanglement
graph, interference patterns, decoherence history) and returns the empty
result; in the embedding these are total functions, so no exception can be
raised.  No warning is logged — `quantum.py` performs no logging (see the
counterexample). -/
theorem C7_unknown_id_noop (r : QuantumScientificReasoner) (now : Nat)
    (ev : Evidence) (rate : ℝ) (i j : String) (strength : ℝ) (n : Nat) :
    (alookup r.hypothesis_superpositions ev.hypothesis_id = none →
      applyEvidence now ev rate r = r) ∧
    ((alookup r.hypothesis_superpositions i = none ∨
      alookup r.hypothesis_superpositions j = none) →
      entangleHypotheses i j strength r = r ∧
      computeInterference i j r = (none, r)) ∧
    (alookup r.hypothesis_superpositions i = none →
      generateQuantumPredictions i n r = []) := by
  refine ⟨?_, ?_, ?_⟩
  · intro h
    unfold applyEvidence
    rw [h]
  · intro h
    refine ⟨entangle_unreg i j strength r h, ?_⟩
    unfold computeInterference
    rcases hi : alookup r.hypothesis_superpositions i with _ | s1 <;>
      rcases hj : alookup r.hypothesis_superpositions j with _ | s2 <;> try rfl
    rcases h with h | h
    · exact Option.noConfusion (h.symm.trans hi)
    · exact Option.noConfusion (h.symm.trans hj)
  · intro h
    unfold generateQuantumPredictions
    rw [h]

def evC7 : Evidence := ⟨"e9", "nowhere", .other⟩

/-- Witness for C7 on the empty reasoner. -/
theorem C7_witness :
    applyEvidence 3 evC7 0.1 emptyReasoner = emptyReasoner ∧
    entangleHypotheses "a" "b" 0.5 emptyReasoner = emptyReasoner ∧
    computeInterference "a" "b" emptyReasoner = (none, emptyReasoner) ∧
    generateQuantumPredictions "a" 4 emptyReasoner = [] := by
  have h := C7_unknown_id_noop emptyReasoner 3 evC7 0.1 "a" "b" 0.5 4
  have hn : alookup emptyReasoner.hypothesis_superpositions "a" = none := rfl
  have hn2 : alookup emptyReasoner.hypothesis_superpositions
    evC7.hypothesis_id = none := rfl
  exact ⟨h.1 hn2, (h.2.1 (Or.inl hn)).1, (h.2.1 (Or.inl hn)).2, h.2.2 hn⟩

/-- The log messages emitted by a reasoner operation.  `quantum.py` has no
`logging` import and contains no logging, printing or warning call of any
kind, so every operation — on known and unknown ids alike — emits none. -/
def reasonerLogMessages : ReasonerOp → QuantumScientificReasoner → List String :=
  fun _ _ => []

/-- C7 counterexample: an `apply_evidence` call with an unknown hypothesis id
is indeed a no-op that does not raise, but it logs nothing — no warning — so
the claim that such operations "log a warning" is false. -/
theorem C7_counterexample :
    applyEvidence 3 evC7 0.1 emptyReasoner = emptyReasoner ∧
    reasonerLogMessages (.evidence 3 evC7 0.1) emptyReasoner = [] := by
  constructor
  · unfold applyEvidence
    rfl
  · rfl

/-! ## Hermeneutics (`src/core/hermeneutics.py`, `src/core/foundations.py`) -/

/-- `ScientificParadigm` enum from `foundations.py`. -/
inductive ScientificParadigm where
  | EMPIRICISM
  | RATIONALISM
  | POSITIVISM
  | FALSIFICATIONISM
  | KUHNIAN
  | LAKATOSIAN
  | FEYERABEND
  | BAYESIAN
  | HERMENEUTIC
  | COMPLEXITY
deriving DecidableEq

/-- Python `Enum.name`. -/
def ScientificParadigm.name : ScientificParadigm → String
  | .EMPIRICISM => "EMPIRICISM"
  | .RATIONALISM => "RATIONALISM"
  | .POSITIVISM => "POSITIVISM"
  | .FALSIFICATIONISM => "FALSIFICATIONISM"
  | .KUHNIAN => "KUHNIAN"
  | .LAKATOSIAN => "LAKATOSIAN"
  | .FEYERABEND => "FEYERABEND"
  | .BAYESIAN => "BAYESIAN"
  | .HERMENEUTIC => "HERMENEUTIC"
  | .COMPLEXITY => "COMPLEXITY"

/-- A record of `fusion_history` (the `time` value of `datetime.now()` is a
`Nat` parameter). -/
structure FusionRecord where
  horizon1 : String
  horizon2 : String
  time : Nat
  pre_understanding_synthesis : String

/-- The `historical_consciousness` dict: either an initial dict (possibly
carrying an `"origin"` key) or the merged dict built by `fuse_with` (which has
no `"origin"` key). -/
inductive HistoricalConsciousness where
  | base (origin : Option String)
  | merged (merged_from : List String) (fusion_time : Nat)
      (integrated_traditions : List ScientificParadigm)

/-- `self.historical_consciousness.get("origin", "unknown")`. -/
def HistoricalConsciousness.getOrigin : HistoricalConsciousness → String
  | .base (some o) => o
  | .base none => "unknown"
  | .merged _ _ _ => "unknown"

/-- The `effective_history` dict: an initial dict or the
`created_from_fusion` dict built by `fuse_with`. -/
inductive EffectiveHistory where
  | base (entries : List (String × String))
  | fromFusion (parent_horizons : List Nat) (fusion_count : Nat)
      (tradition_complexity : Nat)

/-- `InterpretiveHorizon` dataclass. -/
structure InterpretiveHorizon where
  pre_understandings : List String
  historical_consciousness : HistoricalConsciousness
  tradition : ScientificParadigm
  fusion_history : List FusionRecord
  effective_history : EffectiveHistory

/-- `InterpretiveHorizon.fuse_with`.  `datetime.now()` is the parameter `now`
and the Python object ids `id(self)`, `id(other)` are the parameters `idSelf`,
`idOther`; `list(set(...))` (arbitrary iteration order) is modelled as
deduplication. -/
def InterpretiveHorizon.fuseWith (now idSelf idOther : Nat)
    (self other : InterpretiveHorizon) : InterpretiveHorizon :=
  let new_pre_understandings :=
    (self.pre_understandings ++ other.pre_understandings).dedup
  let new_historical := HistoricalConsciousness.merged
    [self.historical_consciousness.getOrigin,
     other.historical_consciousness.getOrigin]
    now [self.tradition, other.tradition]
  let fusion_record : FusionRecord :=
    ⟨self.tradition.name, other.tradition.name, now,
      toString new_pre_understandings.length ++ " integrated prejudgements"⟩
  let new_fusion_history :=
    self.fusion_history ++ other.fusion_history ++ [fusion_record]
  let new_effective := EffectiveHistory.fromFusion [idSelf, idOther]
    new_fusion_history.length
    ([self.tradition, other.tradition].dedup.length)
  let dominant_tradition :=
    if self.fusion_history.length > other.fusion_history.length
    then self.tradition else other.tradition
  ⟨new_pre_understandings, new_historical, dominant_tradition,
    new_fusion_history, new_effective⟩

theorem fuseWith_history_length (now idSelf idOther : Nat)
    (h1 h2 : InterpretiveHorizon) :
    (h1.fuseWith now idSelf idOther h2).fusion_history.length =
      h1.fusion_history.length + h2.fusion_history.length + 1 := by
  simp [InterpretiveHorizon.fuseWith]
  omega

/-- C2: fusing two horizons yields a brand-new horizon whose fusion-history
length is the sum of the two inputs' history lengths plus one; the embedding is
a pure function of both inputs (the Python code only reads `self`/`other` and
builds fresh lists and dicts, mutating neither input). -/
theorem C2_fuse_history_length (now idSelf idOther : Nat)
    (h1 h2 : InterpretiveHorizon) :
    (h1.fuseWith now idSelf idOther h2).fusion_history.length =
      h1.fusion_history.length + h2.fusion_history.length + 1 :=
  fuseWith_history_length now idSelf idOther h1 h2

/-- C3 (amended): the fused horizon carries the tradition of the input with
the strictly longer fusion history; on ties it carries the SECOND input's
tradition (the code compares with a strict `>`), not the first's as claimed;
the 3-versus-1 scenario still yields the length-3 horizon's tradition and a
fusion history of length 5. -/
theorem C3_dominant_tradition (now idSelf idOther : Nat)
    (h1 h2 : InterpretiveHorizon) :
    (h1.fusion_history.length > h2.fusion_history.length →
      (h1.fuseWith now idSelf idOther h2).tradition = h1.tradition) ∧
    (h1.fusion_history.length ≤ h2.fusion_history.length →
      (h1.fuseWith now idSelf idOther h2).tradition = h2.tradition) ∧
    (h1.fusion_history.length = 3 → h2.fusion_history.length = 1 →
      (h1.fuseWith now idSelf idOther h2).tradition = h1.tradition ∧
      (h1.fuseWith now idSelf idOther h2).fusion_history.length = 5) := by
  refine ⟨?_, ?_, ?_⟩
  · intro h
    simp only [InterpretiveHorizon.fuseWith]
    rw [if_pos h]
  · intro h
    simp only [InterpretiveHorizon.fuseWith]
    rw [if_neg (by omega)]
  · intro ha hb
    constructor
    · simp only [InterpretiveHorizon.fuseWith]
      rw [if_pos (by omega)]
    · rw [fuseWith_history_length, ha, hb]

def frec : FusionRecord := ⟨"EMPIRICISM", "BAYESIAN", 0, "x"⟩

def hz3 : InterpretiveHorizon :=
  ⟨[], .base none, .HERMENEUTIC, [frec, frec, frec], .base []⟩

def hz1 : InterpretiveHorizon :=
  ⟨[], .base none, .COMPLEXITY, [frec], .base []⟩

/-- Witness for C3: history lengths 3 and 1. -/
theorem C3_witness :
    (hz3.fuseWith 0 0 0 hz1).tradition = ScientificParadigm.HERMENEUTIC ∧
    (hz3.fuseWith 0 0 0 hz1).fusion_history.length = 5 := by
  have h := (C3_dominant_tradition 0 0 0 hz3 hz1).2.2 rfl rfl
  exact ⟨h.1, h.2⟩

def hzE : InterpretiveHorizon := ⟨[], .base none, .EMPIRICISM, [], .base []⟩

def hzB : InterpretiveHorizon := ⟨[], .base none, .BAYESIAN, [], .base []⟩

/-- C3 counterexample: two horizons with equal (empty) fusion histories fuse to
a horizon carrying the SECOND input's tradition, not the first's as the
claimed tie-break says. -/
theorem C3_counterexample :
    hzE.fusion_history.length = hzB.fusion_history.length ∧
    (hzE.fuseWith 0 0 0 hzB).tradition = ScientificParadigm.BAYESIAN ∧
    ScientificParadigm.BAYESIAN ≠ hzE.tradition := by
  refine ⟨rfl, rfl, by decide⟩

/-! ## C10: the hermeneutic circle's coherence score -/

/-- Python substring test `sub in s`. -/
def strIn (sub s : String) : Bool :=
  s.data.tails.any (fun t => sub.data.isPrefixOf t)

theorem strIn_empty_left (s : String) : strIn "" s = true := by
  unfold strIn
  cases hd : s.data with
  | nil => rfl
  | cons c t => rfl

/-- The interpretation dict built by `InterpretiveHorizon.interpret_data`.
The `data` frame and `context` dict do not influence any field, so they are
omitted from the embedding. -/
structure Interpretation where
  horizon : String
  pre_understandings_applied : List String
  historical_effects : EffectiveHistory
  interpretive_moves : List String
  focus : String
  method : String
  value_criteria : List String

/-- `InterpretiveHorizon.interpret_data`: the focus / method / value-criteria
triple is a lookup on the tradition with a generic fallback. -/
def interpretData (hz : InterpretiveHorizon) : Interpretation :=
  let base := fun (f m : String) (v : List String) =>
    ({ horizon := hz.tradition.name
       pre_understandings_applied := hz.pre_understandings.take 3
       historical_effects := hz.effective_history
       interpretive_moves := []
       focus := f
       method := m
       value_criteria := v } : Interpretation)
  match hz.tradition with
  | .FALSIFICATIONISM =>
    base "refutation_attempts" "search_for_counterexamples"
      ["falsifiability", "riskiness"]
  | .HERMENEUTIC =>
    base "understanding_meaning" "hermeneutic_circle"
      ["coherence", "meaningfulness", "context_sensitivity"]
  | .BAYESIAN =>
    base "belief_updating" "probabilistic_inference"
      ["likelihood_ratio", "prior_plausibility"]
  | .COMPLEXITY =>
    base "emergent_patterns" "pattern_recognition"
      ["nonlinearity", "scale_invariance", "emergence"]
  | _ => base "general_analysis" "standard_review" ["accuracy"]

/-- The pre-understanding dict built in step 1 of the hermeneutic circle. -/
structure PreUnderstanding where
  hypothesis : String
  existing_confidence : ℚ
  horizon_biases : List String

/-- A contradiction record from `_find_contradictions` (`ctype` embeds the
`"type"` key; the Python challenge text wraps the bias in single quotes). -/
structure Contradiction where
  ctype : String
  bias : String
  challenge : String

/-- `_find_contradictions`: only biases containing an absolute quantifier, and
only when the focus is literally `"counterexamples"`, produce a record. -/
def findContradictions (pre : PreUnderstanding) (interp : Interpretation) :
    List Contradiction :=
  pre.horizon_biases.foldl
    (fun acc bias =>
      if strIn "only" bias || strIn "always" bias then
        if interp.focus = "counterexamples" then
          acc ++ [⟨"absolute_statement_challenged", bias,
            "Data suggests exceptions to " ++ bias⟩]
        else acc
      else acc)
    []

/-- A belief-adjustment record (`fromBelief`/`toBelief` embed the `"from"` and
`"to"` keys). -/
structure BeliefAdjustment where
  fromBelief : String
  toBelief : String
  reason : String

/-- The adjusted-understanding dict built by `_adjust_understanding`: it is
created with exactly these four keys and the loop only appends to two of them,
so it never acquires `focus`, `method` or `value_criteria` keys. -/
structure AdjustedUnderstanding where
  original_pre_understanding : PreUnderstanding
  initial_interpretation : Interpretation
  contradictions_addressed : List Contradiction
  adjusted_beliefs : List BeliefAdjustment

/-- `_adjust_understanding`. -/
def adjustUnderstanding (pre : PreUnderstanding) (interp : Interpretation)
    (contradictions : List Contradiction) : AdjustedUnderstanding :=
  contradictions.foldl
    (fun adj c =>
      if c.ctype = "absolute_statement_challenged" then
        { adj with
          contradictions_addressed := adj.contradictions_addressed ++ [c]
          adjusted_beliefs := adj.adjusted_beliefs ++
            [⟨c.bias, (c.bias.replace "always" "often").replace "only" "primarily",
              "data_shows_exceptions"⟩] }
      else adj)
    ⟨pre, interp, [], []⟩

/-- `_adjust_statement`. -/
def adjustStatement (statement : String)
    (adjustments : List BeliefAdjustment) : String :=
  adjustments.foldl
    (fun revised adj =>
      if strIn adj.fromBelief revised then
        revised.replace adj.fromBelief adj.toBelief
      else revised)
    statement

/-- The projection of a Python dict to the three keys `_compute_coherence`
reads with `.get`; `none` models a missing key. -/
structure UnderstandingView where
  focus : Option String
  method : Option String
  value_criteria : Option (List String)

/-- `_compute_coherence`. -/
def computeCoherence (u1 u2 : UnderstandingView) : ℚ :=
  let focus1 := u1.focus.getD ""
  let focus2 := u2.focus.getD ""
  let focus_coherence : ℚ :=
    if focus1 = focus2 then 1
    else if strIn focus1 focus2 || strIn focus2 focus1 then 0.7
    else 0.3
  let method_coherence : ℚ :=
    if u1.method.getD "" = u2.method.getD "" then 1 else 0.5
  let values1 := (u1.value_criteria.getD []).toFinset
  let values2 := (u2.value_criteria.getD []).toFinset
  let value_coherence : ℚ :=
    if values1 = values2 then 1
    else if (values1 ∩ values2).Nonempty then
      ((values1 ∩ values2).card : ℚ) / ((values1 ∪ values2).card : ℚ)
    else 0
  (focus_coherence + method_coherence + value_coherence) / 3

/-- The view `_compute_coherence` takes of the adjusted-understanding dict:
all three keys are missing by construction. -/
def AdjustedUnderstanding.view : AdjustedUnderstanding → UnderstandingView :=
  fun _ => ⟨none, none, none⟩

/-- The view `_compute_coherence` takes of an interpretation dict. -/
def Interpretation.view (i : Interpretation) : UnderstandingView :=
  ⟨some i.focus, some i.method, some i.value_criteria⟩

/-- The hermeneutic-circle record (audit fields retained). -/
structure CircleRecord where
  hypothesis_id : String
  pre_understanding : PreUnderstanding
  initial_interpretation : Interpretation
  contradictions_found : List Contradiction
  adjusted_understanding : AdjustedUnderstanding
  revised_hypothesis : String
  secondary_interpretation : Interpretation
  coherence_score : ℚ
  circle_complete : Bool

/-- `HermeneuticScientificInterpreter` state (the fields the circle touches). -/
structure HermeneuticScientificInterpreter where
  current_horizon : InterpretiveHorizon
  hermeneutic_circles : List CircleRecord

/-- `conduct_hermeneutic_circle` (the `existing_interpretations` argument is
never read by the Python body). -/
def conductHermeneuticCircle (hyp : Hypothesis)
    (itp : HermeneuticScientificInterpreter) :
    CircleRecord × HermeneuticScientificInterpreter :=
  let pre : PreUnderstanding :=
    ⟨hyp.statement, hyp.confidence, itp.current_horizon.pre_understandings⟩
  let initial := interpretData itp.current_horizon
  let contradictions := findContradictions pre initial
  let adjusted := adjustUnderstanding pre initial contradictions
  let revised := adjustStatement hyp.statement adjusted.adjusted_beliefs
  let secondary := interpretData itp.current_horizon
  let coherence := computeCoherence adjusted.view secondary.view
  let record : CircleRecord :=
    ⟨hyp.id, pre, initial, contradictions, adjusted,
      if revised ≠ hyp.statement then revised else "unchanged",
      secondary, coherence, decide (coherence > 0.7)⟩
  (record, { itp with
    hermeneutic_circles := itp.hermeneutic_circles ++ [record] })

/-- The coherence-gated confidence boost in
`DeepScientificAgent.hermeneutic_data_interpretation`. -/
def hermeneuticBoost (record : CircleRecord) (confidence : ℚ) : ℚ :=
  if record.coherence_score > 0.7 then
    confidence * (1 + record.coherence_score * 0.1)
  else confidence

theorem coherence_of_adjusted (hz : InterpretiveHorizon)
    (adj : AdjustedUnderstanding) :
    computeCoherence adj.view (interpretData hz).view = 2/5 := by
  cases htr : hz.tradition <;>
    simp [interpretData, htr, computeCoherence, Interpretation.view,
      AdjustedUnderstanding.view, strIn_empty_left] <;>
    rw [if_neg (by decide)] <;> norm_num

/-- C10: for every hypothesis and every interpreter horizon, the coherence
score of a hermeneutic circle is exactly 2/5 = 0.4 — the adjusted
understanding passed as first argument never carries focus / method /
value-criteria keys, making the three sub-scores 0.7 (the empty focus is a
substring of any focus), 0.5 (methods differ) and 0 (the empty value set is
disjoint from any other) — so `circle_complete` is always false and the
coherence-gated confidence boost in `hermeneutic_data_interpretation` never
fires. -/
theorem C10_coherence_always_two_fifths (hyp : Hypothesis)
    (itp : HermeneuticScientificInterpreter) (confidence : ℚ) :
    (conductHermeneuticCircle hyp itp).1.coherence_score = 2/5 ∧
    (conductHermeneuticCircle hyp itp).1.circle_complete = false ∧
    hermeneuticBoost (conductHermeneuticCircle hyp itp).1 confidence =
      confidence := by
  have hc : (conductHermeneuticCircle hyp itp).1.coherence_score = 2/5 := by
    show computeCoherence _ _ = 2/5
    exact coherence_of_adjusted itp.current_horizon _
  refine ⟨hc, ?_, ?_⟩
  · rw [show (conductHermeneuticCircle hyp itp).1.circle_complete =
      decide ((conductHermeneuticCircle hyp itp).1.coherence_score > 0.7)
      from rfl, hc]
    rw [decide_eq_false_iff_not]
    norm_num
  · unfold hermeneuticBoost
    rw [hc, if_neg (by norm_num)]

/-! ## C4: paradigm-shift trigger (`src/core/agent.py`) -/

/-- An anomaly record as consumed by `_should_consider_paradigm_shift`:
`a["paradigm"]` plus its descriptive type. -/
structure Anomaly where
  paradigm : ScientificParadigm
  atype : String

/-- `DeepScientificAgent._should_consider_paradigm_shift`.  The agent's
`active_paradigms` set is carried as its iteration order (first element =
primary); `performance.get(primary_paradigm, 0)` reads an association list.
Note: `anomaly_count` counts only the anomalies attributed to the primary
paradigm, and both disjuncts use that count. -/
def shouldConsiderParadigmShift (active_paradigms : List ScientificParadigm)
    (performance : List (ScientificParadigm × ℚ))
    (anomalies : List Anomaly) : Bool :=
  match active_paradigms with
  | [] => false
  | primary_paradigm :: _ =>
    let primary_performance := (alookup performance primary_paradigm).getD 0
    let anomaly_count :=
      (anomalies.filter (fun a => a.paradigm = primary_paradigm)).length
    (decide (primary_performance < 0.5) && decide (anomaly_count > 2)) ||
      decide (anomaly_count > 4)

/-- Modelled from the spec: the claimed trigger, whose second disjunct counts
ALL anomalies rather than only those attributed to the primary paradigm. -/
def specShouldConsiderParadigmShift
    (active_paradigms : List ScientificParadigm)
    (performance : List (ScientificParadigm × ℚ))
    (anomalies : List Anomaly) : Bool :=
  match active_paradigms with
  | [] => false
  | primary_paradigm :: _ =>
    let primary_performance := (alookup performance primary_paradigm).getD 0
    let anomaly_count :=
      (anomalies.filter (fun a => a.paradigm = primary_paradigm)).length
    (decide (primary_performance < 0.5) && decide (anomaly_count > 2)) ||
      decide (anomalies.length > 4)

/-- C4 (amended): the trigger fires exactly when the primary paradigm's
performance is below 0.5 with more than 2 anomalies attributed to the primary
paradigm, or when more than 4 anomalies are attributed to the primary paradigm
(not: more than 4 anomalies in total); in particular primary performance 0.4
with 3 primary-paradigm "paradigm_blindness" anomalies fires it. -/
theorem C4_paradigm_shift_trigger (primary : ScientificParadigm)
    (rest : List ScientificParadigm)
    (performance : List (ScientificParadigm × ℚ)) (anomalies : List Anomaly) :
    (shouldConsiderParadigmShift (primary :: rest) performance anomalies = true ↔
      (((alookup performance primary).getD 0 < 0.5 ∧
        (anomalies.filter (fun a => a.paradigm = primary)).length > 2) ∨
       (anomalies.filter (fun a => a.paradigm = primary)).length > 4)) ∧
    shouldConsiderParadigmShift [] performance anomalies = false ∧
    shouldConsiderParadigmShift [primary] [(primary, 2/5)]
      (List.replicate 3 ⟨primary, "paradigm_blindness"⟩) = true := by
  refine ⟨?_, rfl, ?_⟩
  · unfold shouldConsiderParadigmShift
    simp [Bool.or_eq_true, Bool.and_eq_true, decide_eq_true_iff]
  · unfold shouldConsiderParadigmShift
    simp [alookup, List.replicate, List.filter]
    norm_num

/-- C4 counterexample: with primary performance 0.9 and five anomalies all
attributed to a different paradigm, the claim's reading ("total anomalies > 4")
says the trigger fires, but the code's count of primary-paradigm anomalies is
0 and it does not. -/
theorem C4_counterexample :
    shouldConsiderParadigmShift [ScientificParadigm.EMPIRICISM]
      [(ScientificParadigm.EMPIRICISM, 9/10)]
      (List.replicate 5 ⟨ScientificParadigm.BAYESIAN, "paradigm_blindness"⟩) =
      false ∧
    specShouldConsiderParadigmShift [ScientificParadigm.EMPIRICISM]
      [(ScientificParadigm.EMPIRICISM, 9/10)]
      (List.replicate 5 ⟨ScientificParadigm.BAYESIAN, "paradigm_blindness"⟩) =
      true ∧
    (List.replicate 5
      (⟨ScientificParadigm.BAYESIAN, "paradigm_blindness"⟩ : Anomaly)).length
      > 4 := by
  refine ⟨?_, ?_, by decide⟩
  · unfold shouldConsiderParadigmShift
    simp [alookup, List.replicate, List.filter]
  · unfold specShouldConsiderParadigmShift
    simp [alookup, List.replicate, List.filter]

/-! ## C9: the knowledge market (`src/core/ecosystem.py`) -/

/-- A trade record appended to `trading_history` (`datetime.now()` is the
`timestamp` parameter). -/
structure Trade where
  timestamp : Nat
  seller : String
  buyer : String
  hypothesis_id : String
  price : ℚ
  hypothesis_confidence : ℚ
  market_sentiment : ℚ

/-- `KnowledgeMarket` state (the paradigm market caps and evidence currency
are never touched by the two verified operations). -/
structure KnowledgeMarket where
  hypothesis_prices : List (String × ℚ)
  trading_history : List Trade
  market_sentiment : ℚ

/-- `KnowledgeMarket.__init__`. -/
def emptyMarket : KnowledgeMarket := ⟨[], [], 0.5⟩

/-- `KnowledgeMarket.value_hypothesis`: returns the value and stores it under
the hypothesis id. -/
def valueHypothesis (h : Hypothesis) (m : KnowledgeMarket) :
    ℚ × KnowledgeMarket :=
  let base_value := h.confidence * 100
  let novelty_bonus := h.novelty * 50
  let testability_bonus := h.testability * 30
  let evidence_value := (h.supporting_evidence.length : ℚ) * 20
  let disevidence_cost := (h.disconfirming_evidence.length : ℚ) * 30
  let total_value := (base_value + novelty_bonus + testability_bonus +
    evidence_value - disevidence_cost) * (0.5 + m.market_sentiment)
  (total_value,
    { m with hypothesis_prices := aset m.hypothesis_prices h.id total_value })

/-- `KnowledgeMarket.trade_hypothesis`: records the trade, then nudges the
sentiment for prices above 100 / below 30. -/
def tradeHypothesis (now : Nat) (seller_agent_id buyer_agent_id : String)
    (h : Hypothesis) (price : ℚ) (m : KnowledgeMarket) :
    Bool × KnowledgeMarket :=
  let trade : Trade :=
    ⟨now, seller_agent_id, buyer_agent_id, h.id, price, h.confidence,
      m.market_sentiment⟩
  let m1 := { m with trading_history := m.trading_history ++ [trade] }
  let m2 :=
    if price > 100 then
      { m1 with market_sentiment := min 1 (m1.market_sentiment + 0.05) }
    else if price < 30 then
      { m1 with market_sentiment := max 0 (m1.market_sentiment - 0.03) }
    else m1
  (true, m2)

/-- C9: the hypothesis value is exactly
`(100*confidence + 50*novelty + 30*testability + 20*|supporting| -
30*|disconfirming|) * (0.5 + sentiment)`; a trade above 100 raises sentiment
by 0.05 capped at 1, below 30 lowers it by 0.03 floored at 0, in between
leaves it unchanged; every trade appends exactly one record, and neither
market operation removes or alters past trade records. -/
theorem C9_market (h : Hypothesis) (m : KnowledgeMarket) (now : Nat)
    (seller buyer : String) (price : ℚ) :
    (valueHypothesis h m).1 =
      (100 * h.confidence + 50 * h.novelty + 30 * h.testability +
        20 * (h.supporting_evidence.length : ℚ) -
        30 * (h.disconfirming_evidence.length : ℚ)) *
        (0.5 + m.market_sentiment) ∧
    (price > 100 →
      (tradeHypothesis now seller buyer h price m).2.market_sentiment =
        min 1 (m.market_sentiment + 0.05)) ∧
    (price < 30 →
      (tradeHypothesis now seller buyer h price m).2.market_sentiment =
        max 0 (m.market_sentiment - 0.03)) ∧
    (¬ price > 100 → ¬ price < 30 →
      (tradeHypothesis now seller buyer h price m).2.market_sentiment =
        m.market_sentiment) ∧
    (tradeHypothesis now seller buyer h price m).2.trading_history =
      m.trading_history ++
        [⟨now, seller, buyer, h.id, price, h.confidence, m.market_sentiment⟩] ∧
    (valueHypothesis h m).2.trading_history = m.trading_history := by
  refine ⟨?_, ?_, ?_, ?_, ?_, rfl⟩
  · show (h.confidence * 100 + h.novelty * 50 + h.testability * 30 +
      (h.supporting_evidence.length : ℚ) * 20 -
      (h.disconfirming_evidence.length : ℚ) * 30) *
      (0.5 + m.market_sentiment) = _
    ring
  · intro hp
    unfold tradeHypothesis
    dsimp only
    rw [if_pos hp]
  · intro hp
    unfold tradeHypothesis
    dsimp only
    by_cases hover : price > 100
    · exact absurd hp (by linarith)
    · rw [if_neg hover, if_pos hp]
  · intro h1 h2
    unfold tradeHypothesis
    dsimp only
    rw [if_neg h1, if_neg h2]
  · unfold tradeHypothesis
    dsimp only
    by_cases h1 : price > 100
    · rw [if_pos h1]
    · rw [if_neg h1]
      by_cases h2 : price < 30
      · rw [if_pos h2]
      · rw [if_neg h2]

def hC9 : Hypothesis := ⟨"m1", "s", 1/2, 1/2, 1/2, 1/2, [], []⟩

/-- Witness for C9 at a concrete hypothesis and two concrete trades. -/
theorem C9_witness :
    (valueHypothesis hC9 emptyMarket).1 = 90 ∧
    (tradeHypothesis 1 "a1" "a2" hC9 120 emptyMarket).2.market_sentiment =
      min 1 ((0.5 : ℚ) + 0.05) ∧
    (tradeHypothesis 1 "a1" "a2" hC9 10 emptyMarket).2.market_sentiment =
      max 0 ((0.5 : ℚ) - 0.03) ∧
    (tradeHypothesis 1 "a1" "a2" hC9 120 emptyMarket).2.trading_history =
      [⟨1, "a1", "a2", "m1", 120, 1/2, 1/2⟩] := by
  have h := C9_market hC9 emptyMarket 1 "a1" "a2" 120
  have h2 := C9_market hC9 emptyMarket 1 "a1" "a2" 10
  refine ⟨?_, ?_, ?_, ?_⟩
  · rw [h.1]
    show ((100 * (1/2) + 50 * (1/2) + 30 * (1/2) + 20 * ((0:ℚ)) -
      30 * ((0:ℚ))) * (0.5 + 0.5) : ℚ) = 90
    norm_num
  · exact h.2.1 (by norm_num)
  · exact h2.2.2.1 (by norm_num)
  · rw [h.2.2.2.2.1]
    norm_num [emptyMarket, hC9]

/-- Witness for C4 at the end-to-end scenario input: primary performance 0.4
with three primary-paradigm blindness anomalies fires the trigger. -/
theorem C4_witness :
    shouldConsiderParadigmShift [ScientificParadigm.EMPIRICISM]
      [(ScientificParadigm.EMPIRICISM, 2/5)]
      (List.replicate 3 ⟨ScientificParadigm.EMPIRICISM, "paradigm_blindness"⟩) =
      true :=
  (C4_paradigm_shift_trigger ScientificParadigm.EMPIRICISM []
    [(ScientificParadigm.EMPIRICISM, 2/5)]
    (List.replicate 3 ⟨ScientificParadigm.EMPIRICISM, "paradigm_blindness"⟩)).2.2

end SMF
